import Mathlib

/-!
Verification development for the xelis-blockchain P2P layer.

Shallow embedding of the Rust sources:
  - `src/core/reader.rs`       : `Reader`, `ReaderError` and the primitive reads
  - `src/p2p/packet/handshake.rs` : the packet-era `Handshake` and its `Serializer` impl
  - `src/p2p/packet/object.rs` : `ObjectRequest` and its `Serializer` impl
  - `src/p2p/handshake.rs`     : the older `Handshake` with `to_bytes` / `from_bytes`
  - `src/p2p/connection.rs`    : `Connection::send_bytes`, `close`, `read_packet`
  - `src/p2p/server.rs`        : `P2pServer::add_connection`, `verify_handshake`,
                                 `handle_new_connection` (registry effects)
  - `src/p2p/error.rs`         : `P2pError`

Bytes are modelled as `Nat` (well-formedness predicates bound them by 256 where
it matters), Rust `String`s as their UTF-8 byte lists (`String::len` in Rust is
the byte length, which matches list length), machine integers as `Nat` with
explicit bounds, and fallible Rust functions as `Except`-returning functions.
Rust panics (`panic!`, failing `assert!`, `unwrap()` on `Err`,
out-of-bounds slicing) are modelled by a distinguished `panicked` outcome.
-/

namespace Xelis

/-- `ReaderError` from `src/core/reader.rs`. -/
inductive ReaderError where
  | InvalidSize
  | InvalidValue
  | InvalidHex
  | ErrorTryInto
deriving DecidableEq, Repr

/-- `P2pError` from `src/p2p/error.rs`, together with the constructors used by
the older `src/p2p/handshake.rs` / `src/p2p/server.rs` (whose own error enum is
not among the provided sources: `InvalidMinSize`, `InvalidVersionSize`,
`InvalidTagSize`, `InvalidPeerSize`, `InvalidUtf8Sequence`, `OnWrite`).
Constructors that carry a formatted message `String` in Rust carry no payload
here (the message content never matters to control flow); numeric payloads are
kept. I/O errors (`ErrorStd`) carry a `Nat` code standing for the io error. -/
inductive P2pError where
  | Disconnected
  | InvalidHandshake
  | ExpectedHandshake
  | InvalidPeerAddress
  | InvalidNetworkID
  | PeerIdAlreadyUsed (id : Nat)
  | PeerAlreadyConnected
  | ErrorStd (code : Nat)
  | PoisonError
  | SendError
  | TryInto
  | ReaderError (e : ReaderError)
  | ParseAddressError
  | InvalidPacket
  | InvalidPacketSize
  | InvalidPacketNotFullRead
  | RequestSyncChainTooFast
  | InvalidMinSize (n : Nat)
  | InvalidVersionSize (n : Nat)
  | InvalidTagSize (n : Nat)
  | InvalidPeerSize (n : Nat)
  | InvalidUtf8Sequence
  | OnWrite
deriving DecidableEq, Repr

/-- Result of running Rust code that can return a value, return an error, or
panic (divergence): used wherever the modelled code contains a reachable
`panic!` / `assert!` / `unwrap()`. -/
inductive DRes (ε : Type) (α : Type) where
  | ok (a : α)
  | err (e : ε)
  | panicked
deriving DecidableEq, Repr

instance : Monad (DRes ε) where
  pure := DRes.ok
  bind m f :=
    match m with
    | .ok a => f a
    | .err e => .err e
    | .panicked => .panicked

@[simp] theorem DRes.bind_ok (a : α) (f : α → DRes ε β) :
    (DRes.ok a >>= f) = f a := rfl

@[simp] theorem DRes.bind_err (e : ε) (f : α → DRes ε β) :
    ((DRes.err e : DRes ε α) >>= f) = DRes.err e := rfl

@[simp] theorem DRes.bind_panicked (f : α → DRes ε β) :
    ((DRes.panicked : DRes ε α) >>= f) = DRes.panicked := rfl

@[simp] theorem DRes.pure_eq (a : α) : (pure a : DRes ε α) = DRes.ok a := rfl

/-- Big-endian byte decomposition: `natToBe k n` is `n` as `k` big-endian
bytes, the Lean counterpart of Rust's `u16/u32/u64::to_be_bytes` (truncating
to `k` bytes exactly as the fixed-width Rust type does). -/
def natToBe : Nat → Nat → List Nat
  | 0, _ => []
  | k + 1, n => natToBe k (n / 256) ++ [n % 256]

/-- Big-endian recomposition, the counterpart of `uNN::from_be_bytes`. -/
def beToNat (l : List Nat) : Nat :=
  l.foldl (fun acc b => acc * 256 + b) 0

@[simp] theorem natToBe_length (k n : Nat) : (natToBe k n).length = k := by
  induction k generalizing n with
  | zero => rfl
  | succ k ih => simp [natToBe, ih]

theorem beToNat_append_singleton (l : List Nat) (b : Nat) :
    beToNat (l ++ [b]) = beToNat l * 256 + b := by
  simp [beToNat, List.foldl_append]

theorem beToNat_natToBe (k n : Nat) : beToNat (natToBe k n) = n % 256 ^ k := by
  induction k generalizing n with
  | zero => simp [natToBe, beToNat, Nat.mod_one]
  | succ k ih =>
    rw [natToBe, beToNat_append_singleton, ih]
    have h : 256 ^ (k + 1) = 256 * 256 ^ k := by ring
    rw [h, Nat.mod_mul]
    ring

theorem beToNat_natToBe_of_lt {k n : Nat} (h : n < 256 ^ k) :
    beToNat (natToBe k n) = n := by
  rw [beToNat_natToBe, Nat.mod_eq_of_lt h]

/-- UTF-8 validity of a byte sequence, as checked by Rust's
`String::from_utf8` (RFC 3629 well-formedness: right continuation ranges,
no overlong encodings, no surrogates, max U+10FFFF). Any entry `≥ 245`
(in particular any non-byte `Nat`) is rejected. -/
def utf8Valid : List Nat → Bool
  | [] => true
  | b :: rest =>
    if b < 128 then utf8Valid rest
    else if b < 194 then false
    else if b < 224 then
      match rest with
      | c :: r => decide (128 ≤ c ∧ c < 192) && utf8Valid r
      | [] => false
    else if b < 240 then
      match rest with
      | c :: d :: r =>
        (if b = 224 then decide (160 ≤ c ∧ c < 192)
         else if b = 237 then decide (128 ≤ c ∧ c < 160)
         else decide (128 ≤ c ∧ c < 192)) &&
        decide (128 ≤ d ∧ d < 192) && utf8Valid r
      | _ => false
    else if b < 245 then
      match rest with
      | c :: d :: e :: r =>
        (if b = 240 then decide (144 ≤ c ∧ c < 192)
         else if b = 244 then decide (128 ≤ c ∧ c < 144)
         else decide (128 ≤ c ∧ c < 192)) &&
        decide (128 ≤ d ∧ d < 192) && decide (128 ≤ e ∧ e < 192) && utf8Valid r
      | _ => false
    else false

/-- `Hash` from `src/crypto/hash.rs`: a 32-byte digest (the length is part of
well-formedness predicates, not of the type). -/
structure Hash where
  data : List Nat
deriving DecidableEq, Repr

/-- `Hash::zero()`. -/
def Hash.zero : Hash := ⟨List.replicate 32 0⟩

/-- `Reader` from `src/core/reader.rs`: a byte slice plus the cursor `total`. -/
structure Reader where
  bytes : List Nat
  total : Nat
deriving DecidableEq, Repr

/-- `Reader::new`. -/
def Reader.new (bytes : List Nat) : Reader := ⟨bytes, 0⟩

/-- `Reader::size` (remaining bytes). -/
def Reader.size (r : Reader) : Nat := r.bytes.length - r.total

/-- `Reader::total_read`. -/
def Reader.total_read (r : Reader) : Nat := r.total

/-- State-threading shape of the `&mut Reader` methods: each read returns its
result and the updated reader (the reader is returned unchanged on failure
paths that return before advancing, mirroring the source's early returns). -/
def RM (α : Type) : Type := Reader → Except ReaderError α × Reader

instance : Monad RM where
  pure a := fun r => (.ok a, r)
  bind m f := fun r =>
    match m r with
    | (.ok a, r') => f a r'
    | (.error e, r') => (.error e, r')

/-- `return Err(e)` inside a reader method. -/
def rthrow (e : ReaderError) : RM α := fun r => (.error e, r)

theorem RM.bind_apply (m : RM α) (f : α → RM β) (r : Reader) :
    (m >>= f) r =
      match m r with
      | (.ok a, r') => f a r'
      | (.error e, r') => (.error e, r') := rfl

theorem RM.pure_apply (a : α) (r : Reader) : (pure a : RM α) r = (.ok a, r) := rfl

/-- `Reader::read_bytes::<T>(n)` (src/core/reader.rs:33-48): fail with
`InvalidSize` when fewer than `n` bytes remain (without advancing `total`),
otherwise return the slice `bytes[total..total+n]` and advance.  The source's
`try_into` target types (`[u8; k]` with `k = n`, or `Vec<u8>`) never fail on a
slice of the checked length, so the `ErrorTryInto` branch is unreachable and
has no counterpart here. -/
def Reader.read_bytes (n : Nat) : RM (List Nat) := fun r =>
  if n > r.size then (.error .InvalidSize, r)
  else (.ok ((r.bytes.drop r.total).take n), ⟨r.bytes, r.total + n⟩)

/-- `Reader::read_u8` (src/core/reader.rs:62-69): `bytes[total]` after the
emptiness check; `(bytes.drop total).headD 0` is that element since the guard
makes `total < bytes.length`. -/
def Reader.read_u8 : RM Nat := fun r =>
  if r.size = 0 then (.error .InvalidSize, r)
  else (.ok ((r.bytes.drop r.total).headD 0), ⟨r.bytes, r.total + 1⟩)

/-- `Reader::read_u16`. -/
def Reader.read_u16 : RM Nat := fun r =>
  match Reader.read_bytes 2 r with
  | (res, r') => (res.map beToNat, r')

/-- `Reader::read_u64`. -/
def Reader.read_u64 : RM Nat := fun r =>
  match Reader.read_bytes 8 r with
  | (res, r') => (res.map beToNat, r')

/-- `Reader::read_u128`. -/
def Reader.read_u128 : RM Nat := fun r =>
  match Reader.read_bytes 16 r with
  | (res, r') => (res.map beToNat, r')

/-- `Reader::read_bytes_32`. -/
def Reader.read_bytes_32 : RM (List Nat) := Reader.read_bytes 32

/-- `Reader::read_bytes_64`. -/
def Reader.read_bytes_64 : RM (List Nat) := Reader.read_bytes 64

/-- `Reader::read_hash`. -/
def Reader.read_hash : RM Hash := fun r =>
  match Reader.read_bytes_32 r with
  | (res, r') => (res.map Hash.mk, r')

/-- `Reader::read_string_with_size`: read `size` bytes, then validate UTF-8
(`String::from_utf8`), `InvalidValue` on failure. -/
def Reader.read_string_with_size (size : Nat) : RM (List Nat) := fun r =>
  match Reader.read_bytes size r with
  | (.error e, r') => (.error e, r')
  | (.ok bs, r') => if utf8Valid bs then (.ok bs, r') else (.error .InvalidValue, r')

/-- `Reader::read_string`: one length byte, then the string of that size. -/
def Reader.read_string : RM (List Nat) :=
  Reader.read_u8 >>= fun size => Reader.read_string_with_size size

/-- `Reader::read_optional_string`: length byte `0` means `None`. -/
def Reader.read_optional_string : RM (Option (List Nat)) :=
  Reader.read_u8 >>= fun n =>
    if n = 0 then pure none
    else Reader.read_string_with_size n >>= fun s => pure (some s)

/-! ### Writer and socket-address encoding

`src/core/writer.rs` and `src/globals.rs` (`ip_to_bytes` / `ip_from_bytes`)
are not among the provided sources; the definitions below are modelled from
the spec (§4.1 Writer primitives, §6 encodings). -/

/-- Modelled from the spec: `Writer::write_u8` (`src/core/writer.rs` is not in
the sources). One byte; `as u8` truncation is `% 256`. -/
def write_u8 (n : Nat) : List Nat := [n % 256]

/-- Modelled from the spec: `Writer::write_u16`, big-endian. -/
def write_u16 (n : Nat) : List Nat := natToBe 2 n

/-- Modelled from the spec: `Writer::write_u64`, big-endian. -/
def write_u64 (n : Nat) : List Nat := natToBe 8 n

/-- Modelled from the spec: `Writer::write_bytes`, raw bytes. -/
def write_bytes (l : List Nat) : List Nat := l

/-- Modelled from the spec: `Writer::write_hash`, 32 raw bytes. -/
def write_hash (h : Hash) : List Nat := h.data

/-- Modelled from the spec: `Writer::write_string` — a 1-byte length prefix
(`len() as u8`), then the UTF-8 bytes. -/
def write_string (s : List Nat) : List Nat := (s.length % 256) :: s

/-- Modelled from the spec: `Writer::write_optional_string` — length `0`
encodes `None`. -/
def write_optional_string : Option (List Nat) → List Nat
  | none => [0]
  | some s => write_string s

/-- A socket address (`std::net::SocketAddr`): IPv4 or IPv6 bytes plus a
port. -/
inductive SockAddr where
  | v4 (addr : List Nat) (port : Nat)
  | v6 (addr : List Nat) (port : Nat)
deriving DecidableEq, Repr

/-- A well-formed `SocketAddr`: address bytes of the right arity and byte
range, 16-bit port. -/
def SockAddr.WF : SockAddr → Prop
  | .v4 a p => a.length = 4 ∧ (∀ b ∈ a, b < 256) ∧ p < 256 ^ 2
  | .v6 a p => a.length = 16 ∧ (∀ b ∈ a, b < 256) ∧ p < 256 ^ 2

instance : DecidablePred SockAddr.WF := by
  intro a
  cases a <;> simp only [SockAddr.WF] <;> infer_instance

/-- Modelled from the spec (§6): `ip_to_bytes` from `src/globals.rs` (not in
the sources) — a kind byte (0 = IPv4, 1 = IPv6), the address bytes, then a
2-byte big-endian port. -/
def ip_to_bytes : SockAddr → List Nat
  | .v4 a p => 0 :: (a ++ natToBe 2 p)
  | .v6 a p => 1 :: (a ++ natToBe 2 p)

/-- Modelled from the spec (§6): `ip_from_bytes` from `src/globals.rs` (not in
the sources) — reads the kind byte, the 4 or 16 address bytes and the port;
other kind bytes are rejected. -/
def ip_from_bytes : RM SockAddr :=
  Reader.read_u8 >>= fun kind =>
    match kind with
    | 0 =>
      Reader.read_bytes 4 >>= fun a =>
      Reader.read_u16 >>= fun p => pure (SockAddr.v4 a p)
    | 1 =>
      Reader.read_bytes 16 >>= fun a =>
      Reader.read_u16 >>= fun p => pure (SockAddr.v6 a p)
    | _ => rthrow .InvalidValue

/-! ### The packet-era `Handshake` (`src/p2p/packet/handshake.rs`) -/

/-- `Handshake` from `src/p2p/packet/handshake.rs`. Strings are their UTF-8
byte lists. -/
structure Handshake where
  version : List Nat
  node_tag : Option (List Nat)
  network_id : List Nat
  peer_id : Nat
  local_port : Nat
  utc_time : Nat
  block_height : Nat
  block_top_hash : Hash
  peers : List SockAddr
deriving DecidableEq, Repr

/-- `Handshake::MAX_LEN`. -/
def Handshake.MAX_LEN : Nat := 16

/-- The node-tag assert of `Handshake::new`: absent, or of length 1..=16. -/
def nodeTagAssert : Option (List Nat) → Prop
  | some tag => 0 < tag.length ∧ tag.length ≤ Handshake.MAX_LEN
  | none => True

instance : DecidablePred nodeTagAssert := by
  intro o
  cases o <;> simp only [nodeTagAssert] <;> infer_instance

/-- `Handshake::new` (src/p2p/packet/handshake.rs:33-52): asserts on the
version length, node tag length and peer count; a failing assert is a Rust
panic, modelled as `none`. -/
def Handshake.new_checked (version : List Nat) (node_tag : Option (List Nat))
    (network_id : List Nat) (peer_id local_port utc_time block_height : Nat)
    (block_top_hash : Hash) (peers : List SockAddr) : Option Handshake :=
  if 0 < version.length ∧ version.length ≤ Handshake.MAX_LEN ∧
     nodeTagAssert node_tag ∧ peers.length ≤ Handshake.MAX_LEN then
    some ⟨version, node_tag, network_id, peer_id, local_port, utc_time,
          block_height, block_top_hash, peers⟩
  else none

/-- `Serializer::write` for `Handshake` (src/p2p/packet/handshake.rs:98-116). -/
def Handshake.write (h : Handshake) : List Nat :=
  write_string h.version ++
  write_optional_string h.node_tag ++
  write_bytes h.network_id ++
  write_u64 h.peer_id ++
  write_u16 h.local_port ++
  write_u64 h.utc_time ++
  write_u64 h.block_height ++
  write_hash h.block_top_hash ++
  write_u8 h.peers.length ++
  (h.peers.map ip_to_bytes).flatten

/-- The peers-list loop of `Handshake::read`: `count` calls to
`ip_from_bytes`, pushed in order. -/
def readPeers : Nat → RM (List SockAddr)
  | 0 => pure []
  | n + 1 =>
    ip_from_bytes >>= fun p =>
    readPeers n >>= fun ps => pure (p :: ps)

/-- The node-tag length check of `Handshake::read`
(src/p2p/packet/handshake.rs:131-135). -/
def tagCheck : Option (List Nat) → RM Unit
  | some tag =>
    if Handshake.MAX_LEN < tag.length then rthrow .InvalidSize else pure ()
  | none => pure ()

/-- The reads of `Handshake::read` after the node tag
(src/p2p/packet/handshake.rs:137-152): the fixed-width fields, the peer count
with its bound check, and the peers list. -/
def Handshake.readRest (version : List Nat) (node_tag : Option (List Nat)) :
    RM (List Nat × Option (List Nat) × List Nat × Nat × Nat ×
        Nat × Nat × Hash × List SockAddr) :=
  Reader.read_bytes 16 >>= fun network_id =>
  Reader.read_u64 >>= fun peer_id =>
  Reader.read_u16 >>= fun local_port =>
  Reader.read_u64 >>= fun utc_time =>
  Reader.read_u64 >>= fun block_height =>
  Reader.read_bytes_32 >>= fun hash_bytes =>
  Reader.read_u8 >>= fun peers_len =>
  (if Handshake.MAX_LEN < peers_len then rthrow .InvalidSize else pure ()) >>= fun _ =>
  readPeers peers_len >>= fun peers =>
  pure (version, node_tag, network_id, peer_id, local_port, utc_time,
        block_height, Hash.mk hash_bytes, peers)

/-- The field-reading part of `Handshake::read`
(src/p2p/packet/handshake.rs:118-152), up to the final `Handshake::new`. -/
def Handshake.readF : RM (List Nat × Option (List Nat) × List Nat × Nat × Nat ×
    Nat × Nat × Hash × List SockAddr) :=
  Reader.read_string >>= fun version =>
  (if version.length = 0 ∨ Handshake.MAX_LEN < version.length
   then rthrow .InvalidSize else pure ()) >>= fun _ =>
  Reader.read_optional_string >>= fun node_tag =>
  tagCheck node_tag >>= fun _ =>
  Handshake.readRest version node_tag

/-- `Serializer::read` for `Handshake` (src/p2p/packet/handshake.rs:118-154):
the field reads followed by `Handshake::new`, whose asserts would panic. -/
def Handshake.read (r : Reader) : DRes ReaderError Handshake × Reader :=
  match Handshake.readF r with
  | (.error e, r') => (.err e, r')
  | (.ok (version, node_tag, network_id, peer_id, local_port, utc_time,
          block_height, hash, peers), r') =>
    match Handshake.new_checked version node_tag network_id peer_id local_port
        utc_time block_height hash peers with
    | some h => (.ok h, r')
    | none => (.panicked, r')

/-- Well-formedness of an optional node tag string. -/
def nodeTagWF : Option (List Nat) → Prop
  | some tag => 0 < tag.length ∧ tag.length ≤ 16 ∧ utf8Valid tag = true
  | none => True

instance : DecidablePred nodeTagWF := by
  intro o
  cases o <;> simp only [nodeTagWF] <;> infer_instance

/-- Well-formedness of a `Handshake` value, i.e. the representation invariants
a Rust value of this type satisfies: the `Handshake::new` asserts (version
1..=16 bytes, node tag absent or 1..=16 bytes, at most 16 peers), `String`
values are valid UTF-8, fixed-size arrays have their advertised lengths and
machine integers their widths. -/
def Handshake.WF (h : Handshake) : Prop :=
  0 < h.version.length ∧ h.version.length ≤ 16 ∧ utf8Valid h.version = true ∧
  nodeTagWF h.node_tag ∧
  h.network_id.length = 16 ∧
  h.peer_id < 256 ^ 8 ∧ h.local_port < 256 ^ 2 ∧ h.utc_time < 256 ^ 8 ∧
  h.block_height < 256 ^ 8 ∧ h.block_top_hash.data.length = 32 ∧
  h.peers.length ≤ 16 ∧ ∀ p ∈ h.peers, p.WF

instance : DecidablePred Handshake.WF := by
  intro h
  unfold Handshake.WF
  infer_instance

/-! ### `ObjectRequest` (`src/p2p/packet/object.rs`) -/

/-- `ObjectRequest` from `src/p2p/packet/object.rs`. -/
inductive ObjectRequest where
  | block (h : Hash)
  | transaction (h : Hash)
deriving DecidableEq, Repr

/-- `Serializer::write` for `ObjectRequest` (src/p2p/packet/object.rs:20-31). -/
def ObjectRequest.write : ObjectRequest → List Nat
  | .block h => write_u8 0 ++ write_hash h
  | .transaction h => write_u8 1 ++ write_hash h

/-- `Serializer::read` for `ObjectRequest` (src/p2p/packet/object.rs:33-40). -/
def ObjectRequest.read : RM ObjectRequest :=
  Reader.read_u8 >>= fun id =>
    match id with
    | 0 => Reader.read_hash >>= fun h => pure (ObjectRequest.block h)
    | 1 => Reader.read_hash >>= fun h => pure (ObjectRequest.transaction h)
    | _ => rthrow .InvalidValue

/-- Well-formedness of an `ObjectRequest`: the hash is 32 bytes. -/
def ObjectRequest.WF : ObjectRequest → Prop
  | .block h => h.data.length = 32
  | .transaction h => h.data.length = 32

instance : DecidablePred ObjectRequest.WF := by
  intro o
  cases o <;> simp only [ObjectRequest.WF] <;> infer_instance

/-! ### The older `Handshake` (`src/p2p/handshake.rs`), used by `P2pServer` -/

/-- The older `Handshake` struct from `src/p2p/handshake.rs` (no
`local_port`; peers are strings). -/
structure OldHandshake where
  version : List Nat
  node_tag : Option (List Nat)
  network_id : List Nat
  peer_id : Nat
  utc_time : Nat
  block_height : Nat
  block_top_hash : Hash
  peers : List (List Nat)
deriving DecidableEq, Repr

/-- Rust slice indexing `data[i]`: panics when out of bounds. -/
def idxOr (data : List Nat) (i : Nat) : DRes P2pError Nat :=
  if i < data.length then .ok (data.getD i 0) else .panicked

/-- Rust slice `data[a..a+len]`: panics when out of bounds. -/
def sliceOr (data : List Nat) (a len : Nat) : DRes P2pError (List Nat) :=
  if a + len ≤ data.length then .ok ((data.drop a).take len) else .panicked

/-- `String::from_utf8(bytes).unwrap()`: panics on invalid UTF-8. -/
def utf8Unwrap (bs : List Nat) : DRes P2pError (List Nat) :=
  if utf8Valid bs then .ok bs else .panicked

/-- `Handshake::new` from `src/p2p/handshake.rs:25-43`: same asserts as the
packet-era constructor. -/
def OldHandshake.new_checked (version : List Nat) (node_tag : Option (List Nat))
    (network_id : List Nat) (peer_id utc_time block_height : Nat)
    (block_top_hash : Hash) (peers : List (List Nat)) : DRes P2pError OldHandshake :=
  if 0 < version.length ∧ version.length ≤ 16 ∧ nodeTagAssert node_tag ∧
     peers.length ≤ 16 then
    .ok ⟨version, node_tag, network_id, peer_id, utc_time, block_height,
         block_top_hash, peers⟩
  else .panicked

/-- The peers loop of `Handshake::from_bytes` (src/p2p/handshake.rs:149-162):
`n` is the cursor, `exp` the running `expected_size`.  Note the error payload
inside the loop is the updated `expected_size`, as in the source. -/
def readPeersOld (data : List Nat) : Nat → Nat → Nat → DRes P2pError (List (List Nat))
  | _, 0, _ => pure []
  | n, count + 1, exp =>
    idxOr data n >>= fun size =>
    if size = 0 ∨ 16 < size ∨ data.length < exp + size then
      .err (.InvalidPeerSize (exp + size))
    else
      sliceOr data (n + 1) size >>= fun pb =>
      utf8Unwrap pb >>= fun p =>
      readPeersOld data (n + 1 + size) count (exp + size) >>= fun ps =>
      pure (p :: ps)

/-- `Handshake::from_bytes` (src/p2p/handshake.rs:86-165).  The cursor `n` and
`expected_size` bookkeeping mirror the source; `String::from_utf8(..).unwrap()`
on the version and on each peer string is a potential panic (`utf8Unwrap`),
while the node tag's UTF-8 failure is a structured `InvalidUtf8Sequence`
error. -/
def OldHandshake.from_bytes (data : List Nat) : DRes P2pError OldHandshake :=
  if data.length < 75 then .err (.InvalidMinSize data.length)
  else
    idxOr data 0 >>= fun version_len =>
    if version_len = 0 ∨ 16 < version_len ∨ data.length < 75 + version_len then
      .err (.InvalidVersionSize version_len)
    else
      sliceOr data 1 version_len >>= fun vb =>
      utf8Unwrap vb >>= fun version =>
      idxOr data (1 + version_len) >>= fun tag_len =>
      if 16 < tag_len ∨ data.length < 75 + version_len + tag_len then
        .err (.InvalidTagSize tag_len)
      else
        (if tag_len = 0 then pure none
         else
           sliceOr data (1 + version_len + 1) tag_len >>= fun tb =>
           if utf8Valid tb then pure (some tb)
           else .err .InvalidUtf8Sequence) >>= fun node_tag =>
        let n := 1 + version_len + 1 + tag_len
        sliceOr data n 16 >>= fun network_id =>
        sliceOr data (n + 16) 8 >>= fun pid =>
        sliceOr data (n + 24) 8 >>= fun utc =>
        sliceOr data (n + 32) 8 >>= fun height =>
        sliceOr data (n + 40) 32 >>= fun hash =>
        idxOr data (n + 72) >>= fun peers_len =>
        if 16 < peers_len ∨ data.length < 75 + version_len + tag_len + peers_len then
          .err (.InvalidPeerSize peers_len)
        else
          readPeersOld data (n + 73) peers_len
              (75 + version_len + tag_len + peers_len) >>= fun peers =>
          OldHandshake.new_checked version node_tag network_id (beToNat pid)
            (beToNat utc) (beToNat height) (Hash.mk hash) peers

/-! ### Connection (`src/p2p/connection.rs`, tokio era) -/

/-- The state of a `Connection` that the modelled operations touch: the
`closed` flag and the byte counters.  The stream, mailbox and timestamps are
external resources; outcomes of stream operations are passed in explicitly. -/
structure Connection where
  closed : Bool
  bytes_in : Nat
  bytes_out : Nat
deriving DecidableEq, Repr

/-- `Connection::send_bytes` (src/p2p/connection.rs:68-74): `write_all`, add
`buf.len()` to `bytes_out`, `flush`.  `writeErr` / `flushErr` are the outcomes
of the two stream operations (`some code` = the io error of that code); an io
error converts into `P2pError::ErrorStd` via the `#[from]` impl.  The `closed`
flag is never consulted. -/
def Connection.send_bytes (c : Connection) (buf : List Nat)
    (writeErr flushErr : Option Nat) : Except P2pError Unit × Connection :=
  match writeErr with
  | some e => (.error (.ErrorStd e), c)
  | none =>
    let c' : Connection := { c with bytes_out := c.bytes_out + buf.length }
    match flushErr with
    | some e => (.error (.ErrorStd e), c')
    | none => (.ok (), c')

/-- `Connection::close` (src/p2p/connection.rs:138-145): stores `closed =
true` first, then sends `Exit` to the mailbox and shuts the stream down; either
of those can fail, but `closed` is already set.  `sendErr` / `shutdownErr` are
the outcomes of the two fallible steps. -/
def Connection.close (c : Connection) (sendErr : Bool) (shutdownErr : Option Nat) :
    Except P2pError Unit × Connection :=
  let c' : Connection := { c with closed := true }
  if sendErr then (.error .SendError, c')
  else
    match shutdownErr with
    | some e => (.error (.ErrorStd e), c')
    | none => (.ok (), c')

/-- The packets `Connection::read_packet` can decode.  `src/p2p/packet/mod.rs`
is not among the provided sources; modelled from the spec (§4.3): the payload's
first byte is the tag (0 = Handshake, 1 = ObjectRequest), unknown tags are
`InvalidPacket`.  Tag 2 (ObjectResponse) carries `CompleteBlock` /
`Transaction` payloads whose sources are also absent, so it is treated as
unknown here; no claim depends on it. -/
inductive Packet where
  | handshake (h : Handshake)
  | objectRequest (o : ObjectRequest)
deriving DecidableEq, Repr

/-- Modelled from the spec: `Packet::read` — a tag byte, then the tag's
payload read with the codec of §4.1 (the in-source `Handshake` and
`ObjectRequest` readers).  Reader errors convert into
`P2pError::ReaderError`. -/
def Packet.read (r : Reader) : DRes P2pError Packet × Reader :=
  match Reader.read_u8 r with
  | (.error e, r') => (.err (.ReaderError e), r')
  | (.ok 0, r') =>
    match Handshake.read r' with
    | (.ok h, r'') => (.ok (.handshake h), r'')
    | (.err e, r'') => (.err (.ReaderError e), r'')
    | (.panicked, r'') => (.panicked, r'')
  | (.ok 1, r') =>
    match ObjectRequest.read r' with
    | (.ok o, r'') => (.ok (.objectRequest o), r'')
    | (.error e, r'') => (.err (.ReaderError e), r'')
  | (.ok _, r') => (.err .InvalidPacket, r')

/-- `Connection::read_packet` (src/p2p/connection.rs:76-93) over a stream
modelled as the list of bytes the socket will deliver, with each
`stream.read` returning as many bytes as are available up to the buffer size
(the deterministic projection of short reads; a zero-byte read is
`Disconnected`, src/p2p/connection.rs:125-136):
read 4 size bytes (fewer delivered → `InvalidPacketSize`), reject `size == 0`
or `size > max_size`, read `size` payload bytes (`read_all_bytes` loops until
the stream is exhausted → `Disconnected` when short), decode one `Packet`,
and require the reader to have consumed the whole frame. -/
def Connection.read_packet (stream : List Nat) (max_size : Nat) :
    DRes P2pError Packet :=
  if stream.length = 0 then .err .Disconnected
  else if stream.length < 4 then .err .InvalidPacketSize
  else
    let size := beToNat (stream.take 4)
    if size = 0 ∨ max_size < size then .err .InvalidPacketSize
    else
      let rest := stream.drop 4
      if rest.length < size then .err .Disconnected
      else
        let bytes := rest.take size
        match Packet.read (Reader.new bytes) with
        | (.ok p, r') =>
          if r'.total_read ≠ bytes.length then .err .InvalidPacketNotFullRead
          else .ok p
        | (.err e, _) => .err e
        | (.panicked, _) => .panicked

/-! ### P2P server (`src/p2p/server.rs`) -/

/-- The older `Connection` that `P2pServer` stores (its file is not among the
provided sources; the fields are those read through its accessors in
`src/p2p/server.rs` and built by `Handshake::create_connection`,
src/p2p/handshake.rs:45-48: peer id, node tag, version, block height, remote
address, direction). -/
structure ConnectionOld where
  peer_id : Nat
  node_tag : Option (List Nat)
  version : List Nat
  block_height : Nat
  addr : SockAddr
  out : Bool
deriving DecidableEq, Repr

/-- `Handshake::create_connection` (src/p2p/handshake.rs:45-48). -/
def OldHandshake.create_connection (h : OldHandshake) (addr : SockAddr)
    (out : Bool) : ConnectionOld × List (List Nat) :=
  (⟨h.peer_id, h.node_tag, h.version, h.block_height, addr, out⟩, h.peers)

/-- The `P2pServer` state the claims are about: own peer id, capacity, mode,
the registry `connections: HashMap<u64, Connection>` (as an association list
with `HashMap` lookup semantics) and the `channels` key set. -/
structure ServerState where
  peer_id : Nat
  max_peers : Nat
  multi_threaded : Bool
  connections : List (Nat × ConnectionOld)
  channels : List Nat
deriving DecidableEq, Repr

/-- `P2pServer::is_connected_to` (src/p2p/server.rs:162-164). -/
def ServerState.is_connected_to (s : ServerState) (peer_id : Nat) : Bool :=
  s.peer_id == peer_id || s.connections.any (fun kv => kv.1 == peer_id)

/-- `P2pServer::is_connected_to_addr` (src/p2p/server.rs:166-173). -/
def ServerState.is_connected_to_addr (s : ServerState) (peer_addr : SockAddr) : Bool :=
  s.connections.any (fun kv => kv.2.addr == peer_addr)

/-- `P2pServer::get_slots_available` (src/p2p/server.rs:158-160). -/
def ServerState.get_slots_available (s : ServerState) : Nat :=
  s.max_peers - s.connections.length

/-- `P2pServer::add_connection` (src/p2p/server.rs:224-241):
`connections.insert(peer_id, connection)` returning `Some(_)` — the key was
already present — hits `panic!("Peer ID '{}' is already used!")`; otherwise in
multi-threaded mode a channel is registered and its receiver returned. -/
def ServerState.add_connection (s : ServerState) (c : ConnectionOld) :
    DRes P2pError (ServerState × Option Unit) :=
  if s.connections.any (fun kv => kv.1 == c.peer_id) then .panicked
  else
    let s' : ServerState := { s with connections := (c.peer_id, c) :: s.connections }
    if s'.multi_threaded then
      .ok ({ s' with channels := c.peer_id :: s'.channels }, some ())
    else
      .ok (s', none)

/-- The gossiped-peer loop of `verify_handshake`
(src/p2p/server.rs:315-328): parse every peer string (`parse` stands for
`str::parse::<SocketAddr>`, a std function outside the sources); a parse
failure closes the connection and yields `InvalidPeerAddress`; addresses
already connected are skipped. -/
def collectPeers (parse : List Nat → Option SockAddr) (s : ServerState) :
    List (List Nat) → Except P2pError (List SockAddr)
  | [] => .ok []
  | p :: ps =>
    match parse p with
    | none => .error .InvalidPeerAddress
    | some a =>
      match collectPeers parse s ps with
      | .error e => .error e
      | .ok rest =>
        .ok (if s.is_connected_to_addr a then rest else a :: rest)

/-- `P2pServer::verify_handshake` (src/p2p/server.rs:300-331): reject a
foreign `network_id` (`NETWORK_ID` is a compile-time constant from the absent
`src/config.rs`, passed here as `netId`), reject an already-used peer id,
build the connection, parse and filter the gossiped peers, and trim them to
the available slots. -/
def ServerState.verify_handshake (parse : List Nat → Option SockAddr)
    (netId : List Nat) (s : ServerState) (addr : SockAddr) (h : OldHandshake)
    (out : Bool) : Except P2pError (ConnectionOld × List SockAddr) :=
  if h.network_id ≠ netId then .error .InvalidNetworkID
  else if s.is_connected_to h.peer_id then .error (.PeerIdAlreadyUsed h.peer_id)
  else
    let (connection, str_peers) := h.create_connection addr out
    match collectPeers parse s str_peers with
    | .error e => .error e
    | .ok peers => .ok (connection, peers.take s.get_slots_available)

/-- The registry effects of `P2pServer::handle_new_connection`
(src/p2p/server.rs:357-452) on one received buffer: decode the handshake with
`Handshake::from_bytes`, verify it, on an inbound connection send the own
handshake back (`sendBackErr` is that send's outcome), set the stream
non-blocking (on failure the source logs and skips registration), then
register via `add_connection`.  Every error propagates before
`add_connection`, leaving the registry unchanged; thread spawning and the
follow-up dials have no registry effect and are not modelled. -/
def handle_new_connection (parse : List Nat → Option SockAddr)
    (netId : List Nat) (s : ServerState) (addr : SockAddr) (data : List Nat)
    (out : Bool) (sendBackErr : Option P2pError) (setBlockingErr : Bool) :
    DRes P2pError Unit × ServerState :=
  match OldHandshake.from_bytes data with
  | .panicked => (.panicked, s)
  | .err e => (.err e, s)
  | .ok h =>
    match s.verify_handshake parse netId addr h out with
    | .error e => (.err e, s)
    | .ok (connection, _peers) =>
      match if out then none else sendBackErr with
      | some e => (.err e, s)
      | none =>
        if setBlockingErr then (.ok (), s)
        else
          match s.add_connection connection with
          | .panicked => (.panicked, s)
          | .err e => (.err e, s)
          | .ok (s', _) => (.ok (), s')

/-! ### Reader lemmas: reading back an exact prefix -/

theorem rthrow_apply (e : ReaderError) (r : Reader) :
    (rthrow e : RM α) r = (.error e, r) := rfl

theorem drop_advance {data chunk rest : List Nat} {t n : Nat}
    (hd : data.drop t = chunk ++ rest) (hn : chunk.length = n) :
    data.drop (t + n) = rest := by
  subst hn
  rw [← List.drop_drop, hd, List.drop_left]

/-- `drop_advance` with the new cursor given by an arithmetic side goal. -/
theorem drop_advance' {data chunk rest : List Nat} {t u : Nat}
    (hd : data.drop t = chunk ++ rest) (hn : t + chunk.length = u) :
    data.drop u = rest := by
  subst hn
  exact drop_advance hd rfl

theorem drop_advance_cons {data rest : List Nat} {b t u : Nat}
    (hd : data.drop t = b :: rest) (hn : t + 1 = u) :
    data.drop u = rest := by
  subst hn
  exact @drop_advance data [b] rest t 1 hd rfl

theorem read_bytes_exact {data chunk rest : List Nat} {t n u : Nat}
    (hd : data.drop t = chunk ++ rest) (hn : chunk.length = n)
    (hu : u = t + n) :
    Reader.read_bytes n ⟨data, t⟩ = (.ok chunk, ⟨data, u⟩) := by
  have hlen : (data.drop t).length = data.length - t := List.length_drop t data
  rw [hd] at hlen
  simp only [List.length_append] at hlen
  simp only [Reader.read_bytes, Reader.size]
  rw [if_neg (by omega), hd, List.take_left' hn, hu]

theorem read_u8_exact {data rest : List Nat} {b t u : Nat}
    (hd : data.drop t = b :: rest) (hu : u = t + 1) :
    Reader.read_u8 ⟨data, t⟩ = (.ok b, ⟨data, u⟩) := by
  have hlen : (data.drop t).length = data.length - t := List.length_drop t data
  rw [hd] at hlen
  simp only [List.length_cons] at hlen
  simp only [Reader.read_u8, Reader.size]
  rw [if_neg (by omega), hd, hu]
  rfl

theorem read_u16_exact {data rest : List Nat} {v t u : Nat}
    (hd : data.drop t = natToBe 2 v ++ rest) (hv : v < 256 ^ 2)
    (hu : u = t + 2) :
    Reader.read_u16 ⟨data, t⟩ = (.ok v, ⟨data, u⟩) := by
  simp only [Reader.read_u16]
  rw [read_bytes_exact hd (natToBe_length 2 v) hu]
  simp [Except.map, beToNat_natToBe_of_lt hv]

theorem read_u64_exact {data rest : List Nat} {v t u : Nat}
    (hd : data.drop t = natToBe 8 v ++ rest) (hv : v < 256 ^ 8)
    (hu : u = t + 8) :
    Reader.read_u64 ⟨data, t⟩ = (.ok v, ⟨data, u⟩) := by
  simp only [Reader.read_u64]
  rw [read_bytes_exact hd (natToBe_length 8 v) hu]
  simp [Except.map, beToNat_natToBe_of_lt hv]

theorem read_bytes_32_exact {data chunk rest : List Nat} {t u : Nat}
    (hd : data.drop t = chunk ++ rest) (hn : chunk.length = 32)
    (hu : u = t + 32) :
    Reader.read_bytes_32 ⟨data, t⟩ = (.ok chunk, ⟨data, u⟩) := by
  simp only [Reader.read_bytes_32]
  exact read_bytes_exact hd hn hu

theorem read_hash_exact {data chunk rest : List Nat} {t u : Nat}
    (hd : data.drop t = chunk ++ rest) (hn : chunk.length = 32)
    (hu : u = t + 32) :
    Reader.read_hash ⟨data, t⟩ = (.ok (Hash.mk chunk), ⟨data, u⟩) := by
  simp only [Reader.read_hash]
  rw [read_bytes_32_exact hd hn hu]
  rfl

theorem read_string_with_size_exact {data s rest : List Nat} {t u : Nat}
    (hd : data.drop t = s ++ rest) (hv : utf8Valid s = true)
    (hu : u = t + s.length) :
    Reader.read_string_with_size s.length ⟨data, t⟩ = (.ok s, ⟨data, u⟩) := by
  simp only [Reader.read_string_with_size]
  rw [read_bytes_exact hd rfl hu]
  simp [hv]

theorem write_string_cons {s : List Nat} (h : s.length ≤ 255) :
    write_string s = s.length :: s := by
  simp [write_string, Nat.mod_eq_of_lt (by omega : s.length < 256)]

theorem read_string_exact {data s rest : List Nat} {t u : Nat}
    (hd : data.drop t = write_string s ++ rest) (h255 : s.length ≤ 255)
    (hv : utf8Valid s = true) (hu : u = t + 1 + s.length) :
    Reader.read_string ⟨data, t⟩ = (.ok s, ⟨data, u⟩) := by
  rw [write_string_cons h255] at hd
  simp only [List.cons_append] at hd
  have h8 : Reader.read_u8 ⟨data, t⟩ = (.ok s.length, ⟨data, t + 1⟩) :=
    read_u8_exact hd rfl
  have hws : Reader.read_string_with_size s.length ⟨data, t + 1⟩ =
      (.ok s, ⟨data, u⟩) :=
    read_string_with_size_exact (drop_advance_cons hd rfl) hv (by omega)
  simp only [Reader.read_string, RM.bind_apply, h8, hws]

theorem read_optional_string_none_exact {data rest : List Nat} {t u : Nat}
    (hd : data.drop t = write_optional_string none ++ rest) (hu : u = t + 1) :
    Reader.read_optional_string ⟨data, t⟩ = (.ok none, ⟨data, u⟩) := by
  simp only [write_optional_string, List.cons_append, List.nil_append] at hd
  have h8 : Reader.read_u8 ⟨data, t⟩ = (.ok 0, ⟨data, u⟩) := read_u8_exact hd hu
  simp only [Reader.read_optional_string, RM.bind_apply, h8, if_pos,
    RM.pure_apply]

theorem read_optional_string_some_exact {data s rest : List Nat} {t u : Nat}
    (hd : data.drop t = write_optional_string (some s) ++ rest)
    (h1 : 0 < s.length) (h255 : s.length ≤ 255) (hv : utf8Valid s = true)
    (hu : u = t + 1 + s.length) :
    Reader.read_optional_string ⟨data, t⟩ = (.ok (some s), ⟨data, u⟩) := by
  simp only [write_optional_string] at hd
  rw [write_string_cons h255] at hd
  simp only [List.cons_append] at hd
  have h8 : Reader.read_u8 ⟨data, t⟩ = (.ok s.length, ⟨data, t + 1⟩) :=
    read_u8_exact hd rfl
  have hws : Reader.read_string_with_size s.length ⟨data, t + 1⟩ =
      (.ok s, ⟨data, u⟩) :=
    read_string_with_size_exact (drop_advance_cons hd rfl) hv (by omega)
  have hne : ¬(s.length = 0) := by omega
  simp only [Reader.read_optional_string, RM.bind_apply, h8, hne, if_false,
    hws, RM.pure_apply]

theorem ip_from_bytes_exact {data rest : List Nat} {a : SockAddr} {t u : Nat}
    (hd : data.drop t = ip_to_bytes a ++ rest) (hwf : a.WF)
    (hu : u = t + (ip_to_bytes a).length) :
    ip_from_bytes ⟨data, t⟩ = (.ok a, ⟨data, u⟩) := by
  cases a with
  | v4 ad p =>
    obtain ⟨hlen, -, hp⟩ := hwf
    simp only [ip_to_bytes, List.cons_append, List.append_assoc] at hd
    simp only [ip_to_bytes, List.length_cons, List.length_append,
      natToBe_length, hlen] at hu
    have h8 : Reader.read_u8 ⟨data, t⟩ = (.ok 0, ⟨data, t + 1⟩) :=
      read_u8_exact hd rfl
    have hd1 : data.drop (t + 1) = ad ++ (natToBe 2 p ++ rest) :=
      drop_advance_cons hd rfl
    have hb : Reader.read_bytes 4 ⟨data, t + 1⟩ = (.ok ad, ⟨data, t + 1 + 4⟩) :=
      read_bytes_exact hd1 hlen rfl
    have hd2 : data.drop (t + 1 + 4) = natToBe 2 p ++ rest :=
      drop_advance' hd1 (by omega)
    have h16 : Reader.read_u16 ⟨data, t + 1 + 4⟩ = (.ok p, ⟨data, t + 1 + 4 + 2⟩) :=
      read_u16_exact hd2 hp rfl
    simp only [ip_from_bytes, RM.bind_apply, h8, hb, h16, RM.pure_apply,
      Prod.mk.injEq, Reader.mk.injEq]
    exact ⟨trivial, trivial, by omega⟩
  | v6 ad p =>
    obtain ⟨hlen, -, hp⟩ := hwf
    simp only [ip_to_bytes, List.cons_append, List.append_assoc] at hd
    simp only [ip_to_bytes, List.length_cons, List.length_append,
      natToBe_length, hlen] at hu
    have h8 : Reader.read_u8 ⟨data, t⟩ = (.ok 1, ⟨data, t + 1⟩) :=
      read_u8_exact hd rfl
    have hd1 : data.drop (t + 1) = ad ++ (natToBe 2 p ++ rest) :=
      drop_advance_cons hd rfl
    have hb : Reader.read_bytes 16 ⟨data, t + 1⟩ = (.ok ad, ⟨data, t + 1 + 16⟩) :=
      read_bytes_exact hd1 hlen rfl
    have hd2 : data.drop (t + 1 + 16) = natToBe 2 p ++ rest :=
      drop_advance' hd1 (by omega)
    have h16 : Reader.read_u16 ⟨data, t + 1 + 16⟩ =
        (.ok p, ⟨data, t + 1 + 16 + 2⟩) := read_u16_exact hd2 hp rfl
    simp only [ip_from_bytes, RM.bind_apply, h8, hb, h16, RM.pure_apply,
      Prod.mk.injEq, Reader.mk.injEq]
    exact ⟨trivial, trivial, by omega⟩

theorem readPeers_exact {data rest : List Nat} {peers : List SockAddr} {t u : Nat}
    (hwf : ∀ p ∈ peers, p.WF)
    (hd : data.drop t = (peers.map ip_to_bytes).flatten ++ rest)
    (hu : u = t + ((peers.map ip_to_bytes).flatten).length) :
    readPeers peers.length ⟨data, t⟩ = (.ok peers, ⟨data, u⟩) := by
  induction peers generalizing t u rest with
  | nil =>
    subst hu
    simp only [List.map_nil, List.flatten_nil, List.length_nil,
      readPeers, RM.pure_apply]
  | cons a ps ih =>
    simp only [List.map_cons, List.flatten_cons, List.append_assoc] at hd
    simp only [List.map_cons, List.flatten_cons, List.length_append] at hu
    have hip : ip_from_bytes ⟨data, t⟩ =
        (.ok a, ⟨data, t + (ip_to_bytes a).length⟩) :=
      ip_from_bytes_exact hd (hwf a (by simp)) rfl
    have hd1 : data.drop (t + (ip_to_bytes a).length) =
        (ps.map ip_to_bytes).flatten ++ rest := drop_advance hd rfl
    have hps : readPeers ps.length ⟨data, t + (ip_to_bytes a).length⟩ =
        (.ok ps, ⟨data, t + (ip_to_bytes a).length +
          ((ps.map ip_to_bytes).flatten).length⟩) :=
      ih (fun p hp => hwf p (by simp [hp])) hd1 rfl
    simp only [List.length_cons, readPeers, RM.bind_apply, hip, hps,
      RM.pure_apply, Prod.mk.injEq, Reader.mk.injEq]
    exact ⟨trivial, trivial, by omega⟩

theorem tagCheck_eq_pure {nt : Option (List Nat)}
    (h : ∀ tag ∈ nt, tag.length ≤ 16) : tagCheck nt = (pure () : RM Unit) := by
  cases nt with
  | none => rfl
  | some tag =>
    simp only [tagCheck, Handshake.MAX_LEN]
    rw [if_neg]
    simp only [not_lt]
    exact h tag rfl

theorem read_bytes_short {r : Reader} {n : Nat} (h : r.size < n) :
    Reader.read_bytes n r = (.error .InvalidSize, r) := by
  simp only [Reader.read_bytes]
  rw [if_pos h]

theorem nodeTagWF_assert {nt : Option (List Nat)} (h : nodeTagWF nt) :
    nodeTagAssert nt := by
  cases nt with
  | none => trivial
  | some tag => exact ⟨h.1, h.2.1⟩

theorem readRest_exact {data rest nid hsh : List Nat}
    {pid port utc height t u : Nat} {peers : List SockAddr}
    (version : List Nat) (node_tag : Option (List Nat))
    (hnid : nid.length = 16) (hpid : pid < 256 ^ 8) (hport : port < 256 ^ 2)
    (hutc : utc < 256 ^ 8) (hheight : height < 256 ^ 8) (hhsh : hsh.length = 32)
    (hpeers : peers.length ≤ 16) (hpwf : ∀ p ∈ peers, p.WF)
    (hd : data.drop t = nid ++ (natToBe 8 pid ++ (natToBe 2 port ++
      (natToBe 8 utc ++ (natToBe 8 height ++ (hsh ++
      (peers.length :: ((peers.map ip_to_bytes).flatten ++ rest))))))))
    (hu : u = t + 16 + 8 + 2 + 8 + 8 + 32 + 1 +
      ((peers.map ip_to_bytes).flatten).length) :
    Handshake.readRest version node_tag ⟨data, t⟩ =
      (.ok (version, node_tag, nid, pid, port, utc, height, Hash.mk hsh, peers),
       ⟨data, u⟩) := by
  have h1 : Reader.read_bytes 16 ⟨data, t⟩ = (.ok nid, ⟨data, t + 16⟩) :=
    read_bytes_exact hd hnid rfl
  have hd1 := drop_advance' hd (show t + nid.length = t + 16 by rw [hnid])
  have h2 : Reader.read_u64 ⟨data, t + 16⟩ = (.ok pid, ⟨data, t + 16 + 8⟩) :=
    read_u64_exact hd1 hpid rfl
  have hd2 := drop_advance' hd1
    (show t + 16 + (natToBe 8 pid).length = t + 16 + 8 by simp)
  have h3 : Reader.read_u16 ⟨data, t + 16 + 8⟩ =
      (.ok port, ⟨data, t + 16 + 8 + 2⟩) := read_u16_exact hd2 hport rfl
  have hd3 := drop_advance' hd2
    (show t + 16 + 8 + (natToBe 2 port).length = t + 16 + 8 + 2 by simp)
  have h4 : Reader.read_u64 ⟨data, t + 16 + 8 + 2⟩ =
      (.ok utc, ⟨data, t + 16 + 8 + 2 + 8⟩) := read_u64_exact hd3 hutc rfl
  have hd4 := drop_advance' hd3
    (show t + 16 + 8 + 2 + (natToBe 8 utc).length = t + 16 + 8 + 2 + 8 by simp)
  have h5 : Reader.read_u64 ⟨data, t + 16 + 8 + 2 + 8⟩ =
      (.ok height, ⟨data, t + 16 + 8 + 2 + 8 + 8⟩) := read_u64_exact hd4 hheight rfl
  have hd5 := drop_advance' hd4
    (show t + 16 + 8 + 2 + 8 + (natToBe 8 height).length = t + 16 + 8 + 2 + 8 + 8 by simp)
  have h6 : Reader.read_bytes_32 ⟨data, t + 16 + 8 + 2 + 8 + 8⟩ =
      (.ok hsh, ⟨data, t + 16 + 8 + 2 + 8 + 8 + 32⟩) :=
    read_bytes_32_exact hd5 hhsh rfl
  have hd6 := drop_advance' hd5
    (show t + 16 + 8 + 2 + 8 + 8 + hsh.length = t + 16 + 8 + 2 + 8 + 8 + 32 by rw [hhsh])
  have h7 : Reader.read_u8 ⟨data, t + 16 + 8 + 2 + 8 + 8 + 32⟩ =
      (.ok peers.length, ⟨data, t + 16 + 8 + 2 + 8 + 8 + 32 + 1⟩) :=
    read_u8_exact hd6 rfl
  have hd7 := drop_advance_cons hd6 rfl
  have h8 : readPeers peers.length ⟨data, t + 16 + 8 + 2 + 8 + 8 + 32 + 1⟩ =
      (.ok peers, ⟨data, t + 16 + 8 + 2 + 8 + 8 + 32 + 1 +
        ((peers.map ip_to_bytes).flatten).length⟩) :=
    readPeers_exact hpwf hd7 rfl
  have hnot : ¬(Handshake.MAX_LEN < peers.length) := by
    simp only [Handshake.MAX_LEN]
    omega
  simp only [Handshake.readRest, RM.bind_apply, h1, h2, h3, h4, h5, h6, h7,
    hnot, if_false, RM.pure_apply, h8, Prod.mk.injEq, Reader.mk.injEq]
  exact ⟨trivial, trivial, by omega⟩

theorem readRest_peers_invalid {data rest nid hsh : List Nat}
    {pid port utc height n t : Nat}
    (version : List Nat) (node_tag : Option (List Nat))
    (hnid : nid.length = 16) (hpid : pid < 256 ^ 8) (hport : port < 256 ^ 2)
    (hutc : utc < 256 ^ 8) (hheight : height < 256 ^ 8) (hhsh : hsh.length = 32)
    (hn16 : 16 < n)
    (hd : data.drop t = nid ++ (natToBe 8 pid ++ (natToBe 2 port ++
      (natToBe 8 utc ++ (natToBe 8 height ++ (hsh ++ (n :: rest))))))) :
    Handshake.readRest version node_tag ⟨data, t⟩ =
      (.error .InvalidSize, ⟨data, t + 16 + 8 + 2 + 8 + 8 + 32 + 1⟩) := by
  have h1 : Reader.read_bytes 16 ⟨data, t⟩ = (.ok nid, ⟨data, t + 16⟩) :=
    read_bytes_exact hd hnid rfl
  have hd1 := drop_advance' hd (show t + nid.length = t + 16 by rw [hnid])
  have h2 : Reader.read_u64 ⟨data, t + 16⟩ = (.ok pid, ⟨data, t + 16 + 8⟩) :=
    read_u64_exact hd1 hpid rfl
  have hd2 := drop_advance' hd1
    (show t + 16 + (natToBe 8 pid).length = t + 16 + 8 by simp)
  have h3 : Reader.read_u16 ⟨data, t + 16 + 8⟩ =
      (.ok port, ⟨data, t + 16 + 8 + 2⟩) := read_u16_exact hd2 hport rfl
  have hd3 := drop_advance' hd2
    (show t + 16 + 8 + (natToBe 2 port).length = t + 16 + 8 + 2 by simp)
  have h4 : Reader.read_u64 ⟨data, t + 16 + 8 + 2⟩ =
      (.ok utc, ⟨data, t + 16 + 8 + 2 + 8⟩) := read_u64_exact hd3 hutc rfl
  have hd4 := drop_advance' hd3
    (show t + 16 + 8 + 2 + (natToBe 8 utc).length = t + 16 + 8 + 2 + 8 by simp)
  have h5 : Reader.read_u64 ⟨data, t + 16 + 8 + 2 + 8⟩ =
      (.ok height, ⟨data, t + 16 + 8 + 2 + 8 + 8⟩) := read_u64_exact hd4 hheight rfl
  have hd5 := drop_advance' hd4
    (show t + 16 + 8 + 2 + 8 + (natToBe 8 height).length = t + 16 + 8 + 2 + 8 + 8 by simp)
  have h6 : Reader.read_bytes_32 ⟨data, t + 16 + 8 + 2 + 8 + 8⟩ =
      (.ok hsh, ⟨data, t + 16 + 8 + 2 + 8 + 8 + 32⟩) :=
    read_bytes_32_exact hd5 hhsh rfl
  have hd6 := drop_advance' hd5
    (show t + 16 + 8 + 2 + 8 + 8 + hsh.length = t + 16 + 8 + 2 + 8 + 8 + 32 by rw [hhsh])
  have h7 : Reader.read_u8 ⟨data, t + 16 + 8 + 2 + 8 + 8 + 32⟩ =
      (.ok n, ⟨data, t + 16 + 8 + 2 + 8 + 8 + 32 + 1⟩) :=
    read_u8_exact hd6 rfl
  have hyes : Handshake.MAX_LEN < n := by
    simp only [Handshake.MAX_LEN]
    omega
  simp only [Handshake.readRest, RM.bind_apply, h1, h2, h3, h4, h5, h6, h7,
    hyes, if_true, rthrow_apply]

theorem readF_to_rest {data rest version : List Nat}
    {node_tag : Option (List Nat)} {t u : Nat}
    (hv1 : 0 < version.length) (hv16 : version.length ≤ 16)
    (hvu : utf8Valid version = true) (htag : nodeTagWF node_tag)
    (hd : data.drop t = write_string version ++
      (write_optional_string node_tag ++ rest))
    (hu : u = t + 1 + version.length + (write_optional_string node_tag).length) :
    Handshake.readF ⟨data, t⟩ = Handshake.readRest version node_tag ⟨data, u⟩ := by
  have hs : Reader.read_string ⟨data, t⟩ =
      (.ok version, ⟨data, t + 1 + version.length⟩) :=
    read_string_exact hd (by omega) hvu rfl
  have hd1 : data.drop (t + 1 + version.length) =
      write_optional_string node_tag ++ rest :=
    drop_advance' hd (by simp only [write_string, List.length_cons]; omega)
  have hcheck : ¬(version.length = 0 ∨ Handshake.MAX_LEN < version.length) := by
    simp only [Handshake.MAX_LEN]
    omega
  cases node_tag with
  | none =>
    have ho : Reader.read_optional_string ⟨data, t + 1 + version.length⟩ =
        (.ok none, ⟨data, t + 1 + version.length + 1⟩) :=
      read_optional_string_none_exact hd1 rfl
    have hueq : t + 1 + version.length + 1 = u := by
      simp only [write_optional_string, List.length_cons, List.length_nil] at hu
      omega
    simp only [Handshake.readF, RM.bind_apply, hs, hcheck, if_false,
      RM.pure_apply, ho, tagCheck, hueq]
  | some tag =>
    obtain ⟨ht1, ht16, htu⟩ := htag
    have ho : Reader.read_optional_string ⟨data, t + 1 + version.length⟩ =
        (.ok (some tag), ⟨data, t + 1 + version.length + 1 + tag.length⟩) :=
      read_optional_string_some_exact hd1 ht1 (by omega) htu rfl
    have htagcheck : ¬(Handshake.MAX_LEN < tag.length) := by
      simp only [Handshake.MAX_LEN]
      omega
    have hueq : t + 1 + version.length + 1 + tag.length = u := by
      simp only [write_optional_string, write_string, List.length_cons] at hu
      omega
    simp only [Handshake.readF, RM.bind_apply, hs, hcheck, if_false,
      RM.pure_apply, ho, tagCheck, htagcheck, hueq]

/-- Encoding then decoding a well-formed packet-era `Handshake` yields it back,
with the reader cursor exactly at the end of the encoding. -/
theorem handshake_write_read {h : Handshake} (hwf : h.WF) :
    Handshake.read (Reader.new (Handshake.write h)) =
      (.ok h, ⟨Handshake.write h, (Handshake.write h).length⟩) := by
  obtain ⟨hv0, hv16, hvu, htag, hnid, hpid, hport, hutc, hht, hhash, hpeers, hpwf⟩ := hwf
  have hmod : h.peers.length % 256 = h.peers.length :=
    Nat.mod_eq_of_lt (by omega)
  have hd0 : (Handshake.write h).drop 0 = write_string h.version ++
      (write_optional_string h.node_tag ++
      (h.network_id ++ (natToBe 8 h.peer_id ++ (natToBe 2 h.local_port ++
      (natToBe 8 h.utc_time ++ (natToBe 8 h.block_height ++
      (h.block_top_hash.data ++ (h.peers.length ::
      ((h.peers.map ip_to_bytes).flatten ++ ([] : List Nat)))))))))) := by
    simp [Handshake.write, write_bytes, write_u64, write_u16, write_u8,
      write_hash, hmod, List.append_assoc]
  have hF := readF_to_rest hv0 hv16 hvu htag hd0 rfl
  have hd1 : (Handshake.write h).drop
      (0 + 1 + h.version.length + (write_optional_string h.node_tag).length) =
      h.network_id ++ (natToBe 8 h.peer_id ++ (natToBe 2 h.local_port ++
      (natToBe 8 h.utc_time ++ (natToBe 8 h.block_height ++
      (h.block_top_hash.data ++ (h.peers.length ::
      ((h.peers.map ip_to_bytes).flatten ++ ([] : List Nat)))))))) := by
    have ha := drop_advance' hd0
      (show 0 + (write_string h.version).length = 0 + 1 + h.version.length by
        simp only [write_string, List.length_cons]
        omega)
    exact drop_advance' ha rfl
  have hR := readRest_exact h.version h.node_tag
    hnid hpid hport hutc hht hhash hpeers hpwf hd1 rfl
  have hread : Handshake.readF (Reader.new (Handshake.write h)) =
      (.ok (h.version, h.node_tag, h.network_id, h.peer_id, h.local_port,
            h.utc_time, h.block_height, Hash.mk h.block_top_hash.data, h.peers),
       ⟨Handshake.write h, 0 + 1 + h.version.length +
        (write_optional_string h.node_tag).length +
        16 + 8 + 2 + 8 + 8 + 32 + 1 +
        ((h.peers.map ip_to_bytes).flatten).length⟩) := by
    rw [Reader.new, hF]
    exact hR
  have hC : 0 < h.version.length ∧ h.version.length ≤ Handshake.MAX_LEN ∧
      nodeTagAssert h.node_tag ∧ h.peers.length ≤ Handshake.MAX_LEN :=
    ⟨hv0, hv16, nodeTagWF_assert htag, hpeers⟩
  have hlen : 0 + 1 + h.version.length +
      (write_optional_string h.node_tag).length +
      16 + 8 + 2 + 8 + 8 + 32 + 1 +
      ((h.peers.map ip_to_bytes).flatten).length =
      (Handshake.write h).length := by
    simp only [Handshake.write, List.length_append, List.length_cons,
      write_string, write_bytes, write_u64, write_u16, write_u8, write_hash,
      natToBe_length, List.length_nil]
    omega
  simp only [Handshake.read, hread, Handshake.new_checked, if_pos hC, hlen]

/-- Encoding then decoding a well-formed `ObjectRequest` yields it back, with
the reader cursor exactly at the end of the encoding. -/
theorem object_request_write_read {o : ObjectRequest} (hwf : o.WF) :
    ObjectRequest.read (Reader.new (ObjectRequest.write o)) =
      (.ok o, ⟨ObjectRequest.write o, (ObjectRequest.write o).length⟩) := by
  cases o with
  | block hs =>
    have hlen : hs.data.length = 32 := hwf
    have hd0 : (ObjectRequest.write (ObjectRequest.block hs)).drop 0 =
        0 :: (hs.data ++ ([] : List Nat)) := by
      simp [ObjectRequest.write, write_u8, write_hash]
    have h8 : Reader.read_u8 ⟨ObjectRequest.write (ObjectRequest.block hs), 0⟩ =
        (.ok 0, ⟨ObjectRequest.write (ObjectRequest.block hs), 0 + 1⟩) :=
      read_u8_exact hd0 rfl
    have hd1 := drop_advance_cons hd0 rfl
    have hh : Reader.read_hash ⟨ObjectRequest.write (ObjectRequest.block hs), 0 + 1⟩ =
        (.ok (Hash.mk hs.data), ⟨ObjectRequest.write (ObjectRequest.block hs),
          0 + 1 + 32⟩) :=
      read_hash_exact hd1 hlen rfl
    have hL : 0 + 1 + 32 = (ObjectRequest.write (ObjectRequest.block hs)).length := by
      simp [ObjectRequest.write, write_u8, write_hash, hlen]
    simp only [Reader.new, ObjectRequest.read, RM.bind_apply, h8, hh,
      RM.pure_apply, hL]
  | transaction hs =>
    have hlen : hs.data.length = 32 := hwf
    have hd0 : (ObjectRequest.write (ObjectRequest.transaction hs)).drop 0 =
        1 :: (hs.data ++ ([] : List Nat)) := by
      simp [ObjectRequest.write, write_u8, write_hash]
    have h8 : Reader.read_u8 ⟨ObjectRequest.write (ObjectRequest.transaction hs), 0⟩ =
        (.ok 1, ⟨ObjectRequest.write (ObjectRequest.transaction hs), 0 + 1⟩) :=
      read_u8_exact hd0 rfl
    have hd1 := drop_advance_cons hd0 rfl
    have hh : Reader.read_hash ⟨ObjectRequest.write (ObjectRequest.transaction hs), 0 + 1⟩ =
        (.ok (Hash.mk hs.data), ⟨ObjectRequest.write (ObjectRequest.transaction hs),
          0 + 1 + 32⟩) :=
      read_hash_exact hd1 hlen rfl
    have hL : 0 + 1 + 32 =
        (ObjectRequest.write (ObjectRequest.transaction hs)).length := by
      simp [ObjectRequest.write, write_u8, write_hash, hlen]
    simp only [Reader.new, ObjectRequest.read, RM.bind_apply, h8, hh,
      RM.pure_apply, hL]

/-- The only error the gossiped-peer loop can produce is
`InvalidPeerAddress`. -/
theorem collectPeers_error {parse : List Nat → Option SockAddr}
    {s : ServerState} {l : List (List Nat)} {e : P2pError}
    (h : collectPeers parse s l = .error e) : e = .InvalidPeerAddress := by
  induction l with
  | nil => simp [collectPeers] at h
  | cons p ps ih =>
    simp only [collectPeers] at h
    cases hp : parse p with
    | none =>
      rw [hp] at h
      exact (Except.error.injEq _ _).mp h.symm |>.symm ▸ by
        cases h
        rfl
    | some a =>
      rw [hp] at h
      cases hcp : collectPeers parse s ps with
      | error e' =>
        rw [hcp] at h
        cases h
        exact ih hcp
      | ok rest =>
        rw [hcp] at h
        cases h

/-- A version length byte of 0, or over 16 with the version bytes present and
UTF-8-valid or not present at all, makes `Handshake::read` fail with
`InvalidSize`. -/
theorem readF_version_invalid {v : Nat} {rest : List Nat}
    (hv : v = 0 ∨ 16 < v)
    (hok : utf8Valid (rest.take v) = true ∨ rest.length < v) :
    ∃ r', Handshake.readF ⟨v :: rest, 0⟩ = (.error .InvalidSize, r') := by
  have h8 : Reader.read_u8 ⟨v :: rest, 0⟩ = (.ok v, ⟨v :: rest, 0 + 1⟩) :=
    read_u8_exact (show (v :: rest).drop 0 = v :: rest by simp) rfl
  by_cases hle : v ≤ rest.length
  · -- enough bytes: the string is read, then the length check fires
    have hvu : utf8Valid (rest.take v) = true := by
      rcases hok with h | h
      · exact h
      · omega
    have hsl : (rest.take v).length = v := by
      simp only [List.length_take]
      omega
    have hd1 : (v :: rest).drop (0 + 1) = rest.take v ++ rest.drop v := by
      simp [List.take_append_drop]
    have hb : Reader.read_bytes v ⟨v :: rest, 0 + 1⟩ =
        (.ok (rest.take v), ⟨v :: rest, 0 + 1 + v⟩) := by
      exact @read_bytes_exact (v :: rest) (rest.take v) (rest.drop v)
        (0 + 1) v (0 + 1 + v) hd1 hsl rfl
    have hsws : Reader.read_string_with_size v ⟨v :: rest, 0 + 1⟩ =
        (.ok (rest.take v), ⟨v :: rest, 0 + 1 + v⟩) := by
      simp only [Reader.read_string_with_size, hb, hvu, if_true]
    have hcond : (rest.take v).length = 0 ∨
        Handshake.MAX_LEN < (rest.take v).length := by
      rw [hsl]
      simpa only [Handshake.MAX_LEN] using hv
    refine ⟨⟨v :: rest, 0 + 1 + v⟩, ?_⟩
    simp only [Handshake.readF, Reader.read_string, RM.bind_apply, h8, hsws,
      hcond, if_pos, rthrow_apply]
  · -- not enough bytes: `read_bytes` itself fails
    have hb : Reader.read_bytes v ⟨v :: rest, 0 + 1⟩ =
        (.error .InvalidSize, ⟨v :: rest, 0 + 1⟩) := by
      apply read_bytes_short
      simp only [Reader.size, List.length_cons]
      omega
    have hsws : Reader.read_string_with_size v ⟨v :: rest, 0 + 1⟩ =
        (.error .InvalidSize, ⟨v :: rest, 0 + 1⟩) := by
      simp only [Reader.read_string_with_size, hb]
    refine ⟨⟨v :: rest, 0 + 1⟩, ?_⟩
    simp only [Handshake.readF, Reader.read_string, RM.bind_apply, h8, hsws]

/-! ### Claim theorems -/

/-- C1: the claim says decoding a `Handshake` never panics on any input.
`Handshake::read` (packet era) indeed cannot panic, but
`Handshake::from_bytes` (src/p2p/handshake.rs:104) calls
`String::from_utf8(..).unwrap()` on the version bytes: on a 76-byte buffer
whose version is the single non-UTF-8 byte `0xFF`, every length check passes
and the `unwrap` panics.  This theorem evaluates the model at that input. -/
theorem C1_from_bytes_panics_on_invalid_utf8 :
    OldHandshake.from_bytes ([1, 255, 0] ++ List.replicate 16 0 ++
      List.replicate 24 0 ++ List.replicate 32 0 ++ [0]) = .panicked := by
  decide

/-- The counterexample for C2: a registry that already holds peer id 7
receives a connection with peer id 7 — `add_connection` panics instead of
returning `PeerIdAlreadyUsed`. -/
theorem C2_add_connection_cex :
    ServerState.add_connection
      ⟨1, 10, false, [(7, ⟨7, none, [65], 0, .v4 [127, 0, 0, 1] 80, false⟩)], []⟩
      ⟨7, none, [66], 0, .v4 [10, 0, 0, 1] 81, true⟩ = .panicked ∧
    ServerState.add_connection
      ⟨1, 10, false, [(7, ⟨7, none, [65], 0, .v4 [127, 0, 0, 1] 80, false⟩)], []⟩
      ⟨7, none, [66], 0, .v4 [10, 0, 0, 1] 81, true⟩ ≠
      .err (.PeerIdAlreadyUsed 7) := by
  decide

/-- C2 (amended): inserting a connection whose `peer_id` is already a key of
the registry makes `add_connection` panic (`panic!("Peer ID .. is already
used!")`, src/p2p/server.rs:228); the error `PeerIdAlreadyUsed` is instead
produced earlier, by `verify_handshake`, so a duplicate can only reach
`add_connection` through a race. -/
theorem C2_add_connection_duplicate_panics :
    ∀ (s : ServerState) (c : ConnectionOld),
      s.connections.any (fun kv => kv.1 == c.peer_id) = true →
      s.add_connection c = .panicked := by
  intro s c h
  simp only [ServerState.add_connection, h, if_true]

/-- The witness for C2: the amended theorem at the counterexample state. -/
theorem C2_add_connection_duplicate_panics_witness :
    (ServerState.mk 1 10 false
        [(7, ⟨7, none, [65], 0, .v4 [127, 0, 0, 1] 80, false⟩)] []).connections.any
      (fun kv => kv.1 == (7 : Nat)) = true ∧
    ServerState.add_connection
      ⟨1, 10, false, [(7, ⟨7, none, [65], 0, .v4 [127, 0, 0, 1] 80, false⟩)], []⟩
      ⟨7, none, [66], 0, .v4 [10, 0, 0, 1] 81, true⟩ = .panicked :=
  ⟨by decide, C2_add_connection_duplicate_panics _ _ (by decide)⟩

/-- C3: for every well-formed `Handshake` (version 1..=16 bytes, node tag
absent or 1..=16 bytes, at most 16 peers) and every well-formed
`ObjectRequest`, decoding the bytes produced by encoding the value yields the
value back, and the decoder's cursor ends exactly at `encode(v).length`. -/
theorem C3_serializer_round_trip :
    (∀ h : Handshake, h.WF →
      Handshake.read (Reader.new (Handshake.write h)) =
        (.ok h, ⟨Handshake.write h, (Handshake.write h).length⟩)) ∧
    (∀ o : ObjectRequest, o.WF →
      ObjectRequest.read (Reader.new (ObjectRequest.write o)) =
        (.ok o, ⟨ObjectRequest.write o, (ObjectRequest.write o).length⟩)) :=
  ⟨fun _ hwf => handshake_write_read hwf, fun _ hwf => object_request_write_read hwf⟩

/-- The witness for C3: the round trip at the spec's concrete scenario
(`version = "0.1.0"`, no tag, zero network id, peer id 42, port 2125) and at
`ObjectRequest::Block` of a concrete hash. -/
theorem C3_serializer_round_trip_witness :
    Handshake.WF ⟨[48, 46, 49, 46, 48], none, List.replicate 16 0, 42, 2125,
      1700000000, 0, Hash.zero, []⟩ ∧
    Handshake.read (Reader.new (Handshake.write
      ⟨[48, 46, 49, 46, 48], none, List.replicate 16 0, 42, 2125,
       1700000000, 0, Hash.zero, []⟩)) =
      (.ok ⟨[48, 46, 49, 46, 48], none, List.replicate 16 0, 42, 2125,
            1700000000, 0, Hash.zero, []⟩,
       ⟨Handshake.write ⟨[48, 46, 49, 46, 48], none, List.replicate 16 0, 42,
          2125, 1700000000, 0, Hash.zero, []⟩,
        (Handshake.write ⟨[48, 46, 49, 46, 48], none, List.replicate 16 0, 42,
          2125, 1700000000, 0, Hash.zero, []⟩).length⟩) ∧
    ObjectRequest.WF (.block ⟨List.replicate 32 3⟩) ∧
    ObjectRequest.read (Reader.new (ObjectRequest.write
        (.block ⟨List.replicate 32 3⟩))) =
      (.ok (.block ⟨List.replicate 32 3⟩),
       ⟨ObjectRequest.write (.block ⟨List.replicate 32 3⟩),
        (ObjectRequest.write (.block ⟨List.replicate 32 3⟩)).length⟩) :=
  ⟨by decide,
   C3_serializer_round_trip.1 _ (by decide),
   by decide,
   C3_serializer_round_trip.2 _ (by decide)⟩

/-- The counterexample for C4: after `close()` has completed (`closed` is
set), a `send_bytes` whose underlying write fails returns the io error
`ErrorStd`, not `Disconnected` — `send_bytes` contains no `closed` check and
no `Disconnected` construction (src/p2p/connection.rs:68-74). -/
theorem C4_send_bytes_after_close_cex :
    ((Connection.close ⟨false, 0, 0⟩ false none).2).closed = true ∧
    (Connection.send_bytes (Connection.close ⟨false, 0, 0⟩ false none).2
      [1] (some 32) none).1 = .error (.ErrorStd 32) ∧
    (Connection.send_bytes (Connection.close ⟨false, 0, 0⟩ false none).2
      [1] (some 32) none).1 ≠ .error .Disconnected := by
  refine ⟨rfl, rfl, ?_⟩
  simp [Connection.close, Connection.send_bytes]

/-- C4 (amended): after `close()` has completed, `send_bytes` never returns
`Disconnected` (it does not consult the `closed` flag): a call whose
underlying write fails returns that io error as `ErrorStd`, and one whose
write succeeds still returns `Ok`.  `Disconnected` is produced only on the
read path, when the socket delivers zero bytes. -/
theorem C4_send_bytes_after_close_not_disconnected :
    ∀ (c : Connection) (buf : List Nat) (w f : Option Nat),
      c.closed = true →
      (c.send_bytes buf w f).1 ≠ .error .Disconnected ∧
      ∀ e, (c.send_bytes buf (some e) f).1 = .error (.ErrorStd e) := by
  intro c buf w f _
  constructor
  · cases w <;> cases f <;> simp [Connection.send_bytes]
  · intro e
    simp [Connection.send_bytes]

/-- The witness for C4: the amended theorem at a concrete closed
connection. -/
theorem C4_send_bytes_after_close_witness :
    (Connection.mk true 0 0).closed = true ∧
    (((Connection.mk true 0 0).send_bytes [1] (some 32) none).1 ≠
        .error .Disconnected ∧
      ∀ e, ((Connection.mk true 0 0).send_bytes [1] (some e) none).1 =
        .error (.ErrorStd e)) :=
  ⟨rfl, C4_send_bytes_after_close_not_disconnected ⟨true, 0, 0⟩ [1] (some 32) none rfl⟩

/-- The counterexample for C5: a server already connected to address
127.0.0.1:2125 verifies a handshake arriving from that same address (fresh
peer id, matching network id, no gossiped peers) — verification succeeds
instead of rejecting with `PeerAlreadyConnected`. -/
theorem C5_verify_handshake_duplicate_addr_cex :
    ServerState.is_connected_to_addr
      ⟨1, 10, false, [(5, ⟨5, none, [65], 0, .v4 [127, 0, 0, 1] 2125, false⟩)], []⟩
      (.v4 [127, 0, 0, 1] 2125) = true ∧
    ServerState.verify_handshake (fun _ => none) (List.replicate 16 1)
      ⟨1, 10, false, [(5, ⟨5, none, [65], 0, .v4 [127, 0, 0, 1] 2125, false⟩)], []⟩
      (.v4 [127, 0, 0, 1] 2125)
      ⟨[65], none, List.replicate 16 1, 2, 0, 0, Hash.zero, []⟩ false =
      .ok (⟨2, none, [65], 0, .v4 [127, 0, 0, 1] 2125, false⟩, []) :=
  ⟨rfl, rfl⟩

/-- C5 (amended): `verify_handshake` never checks the incoming remote address
against the registry and never produces `PeerAlreadyConnected` (no code path
constructs that error); `is_connected_to_addr` is only used to filter the
gossiped peer list.  A duplicate-address handshake passes verification. -/
theorem C5_verify_handshake_never_peer_already_connected :
    ∀ (parse : List Nat → Option SockAddr) (netId : List Nat)
      (s : ServerState) (addr : SockAddr) (h : OldHandshake) (out : Bool),
      ServerState.verify_handshake parse netId s addr h out ≠
        .error .PeerAlreadyConnected := by
  intro parse netId s addr h out
  simp only [ServerState.verify_handshake, OldHandshake.create_connection]
  split_ifs with h1 h2
  · simp
  · simp
  · cases hcp : collectPeers parse s h.peers with
    | error e =>
      have he := collectPeers_error hcp
      subst he
      simp [hcp]
    | ok peers =>
      simp [hcp]

/-- The witness for C5: the amended theorem at the counterexample's concrete
server state and handshake. -/
theorem C5_verify_handshake_never_peer_already_connected_witness :
    ServerState.verify_handshake (fun _ => none) (List.replicate 16 1)
      ⟨1, 10, false, [(5, ⟨5, none, [65], 0, .v4 [127, 0, 0, 1] 2125, false⟩)], []⟩
      (.v4 [127, 0, 0, 1] 2125)
      ⟨[65], none, List.replicate 16 1, 2, 0, 0, Hash.zero, []⟩ false ≠
      .error .PeerAlreadyConnected :=
  C5_verify_handshake_never_peer_already_connected (fun _ => none)
    (List.replicate 16 1)
    ⟨1, 10, false, [(5, ⟨5, none, [65], 0, .v4 [127, 0, 0, 1] 2125, false⟩)], []⟩
    (.v4 [127, 0, 0, 1] 2125)
    ⟨[65], none, List.replicate 16 1, 2, 0, 0, Hash.zero, []⟩ false

/-- C6: a frame whose 4-byte big-endian length prefix is 0 or exceeds the
maximum packet size makes `read_packet` return `InvalidPacketSize`
(src/p2p/connection.rs:79-82). -/
theorem C6_read_packet_invalid_size :
    ∀ (stream : List Nat) (max_size : Nat),
      4 ≤ stream.length →
      (beToNat (stream.take 4) = 0 ∨ max_size < beToNat (stream.take 4)) →
      Connection.read_packet stream max_size = .err .InvalidPacketSize := by
  intro stream max_size h4 hsz
  simp only [Connection.read_packet]
  rw [if_neg (by omega), if_neg (by omega), if_pos hsz]

/-- The witness for C6: an all-zero length prefix. -/
theorem C6_read_packet_invalid_size_witness :
    4 ≤ ([0, 0, 0, 0] : List Nat).length ∧
    (beToNat (([0, 0, 0, 0] : List Nat).take 4) = 0 ∨
      1048576 < beToNat (([0, 0, 0, 0] : List Nat).take 4)) ∧
    Connection.read_packet [0, 0, 0, 0] 1048576 = .err .InvalidPacketSize :=
  ⟨by decide, by decide,
   C6_read_packet_invalid_size [0, 0, 0, 0] 1048576 (by decide) (by decide)⟩

/-- The counterexample for C7: the handshake decode path on a new connection
(`Handshake::from_bytes`, called by `handle_new_connection`,
src/p2p/server.rs:363) accepts a buffer with a trailing byte after the
complete handshake instead of rejecting it with `InvalidPacketNotFullRead`:
here a minimal 76-byte handshake followed by the junk byte 7 decodes
successfully. -/
theorem C7_from_bytes_accepts_trailing_cex :
    OldHandshake.from_bytes ([1, 65, 0] ++ List.replicate 16 2 ++
        List.replicate 24 0 ++ List.replicate 32 0 ++ [0] ++ [7]) =
      .ok ⟨[65], none, List.replicate 16 2, 0, 0, 0,
           Hash.mk (List.replicate 32 0), []⟩ := by
  decide

/-- C7 (amended): `Connection::read_packet` rejects a frame whose payload
decodes to a packet without consuming every byte of the frame with
`InvalidPacketNotFullRead` (src/p2p/connection.rs:88-91); the handshake path
on a new connection, however, uses `Handshake::from_bytes`, which performs no
such full-consumption check and accepts trailing bytes. -/
theorem C7_read_packet_rejects_trailing :
    ∀ (stream : List Nat) (max_size : Nat) (p : Packet) (r' : Reader),
      4 ≤ stream.length →
      beToNat (stream.take 4) ≠ 0 →
      beToNat (stream.take 4) ≤ max_size →
      beToNat (stream.take 4) ≤ (stream.drop 4).length →
      Packet.read (Reader.new ((stream.drop 4).take (beToNat (stream.take 4)))) =
        (.ok p, r') →
      r'.total_read ≠ ((stream.drop 4).take (beToNat (stream.take 4))).length →
      Connection.read_packet stream max_size = .err .InvalidPacketNotFullRead := by
  intro stream max_size p r' h4 hne hle havail hread htot
  simp only [Connection.read_packet]
  rw [if_neg (by omega), if_neg (by omega), if_neg (by omega),
    if_neg (by omega)]
  simp only [hread]
  rw [if_pos htot]

/-- The witness for C7: a 35-byte frame holding a 34-byte `ObjectRequest`
plus one trailing zero byte. -/
theorem C7_read_packet_rejects_trailing_witness :
    Packet.read (Reader.new ((([0, 0, 0, 35] ++ [1, 0] ++
        List.replicate 32 9 ++ [0]).drop 4).take
        (beToNat (([0, 0, 0, 35] ++ [1, 0] ++
          List.replicate 32 9 ++ [0]).take 4)))) =
      (.ok (.objectRequest (.block ⟨List.replicate 32 9⟩)),
       ⟨[1, 0] ++ List.replicate 32 9 ++ [0], 34⟩) ∧
    Connection.read_packet ([0, 0, 0, 35] ++ [1, 0] ++
        List.replicate 32 9 ++ [0]) 1048576 = .err .InvalidPacketNotFullRead :=
  ⟨by decide,
   C7_read_packet_rejects_trailing
     ([0, 0, 0, 35] ++ [1, 0] ++ List.replicate 32 9 ++ [0]) 1048576
     (.objectRequest (.block ⟨List.replicate 32 9⟩))
     ⟨[1, 0] ++ List.replicate 32 9 ++ [0], 34⟩ (by decide) (by decide)
     (by decide) (by decide) (by decide) (by decide)⟩

/-- The counterexample for C8: `Handshake::read` on an input whose decoded
version length is 17 (> 16) but whose version bytes are not valid UTF-8
returns `InvalidValue` — the UTF-8 check of `read_string` runs before the
length check — and not `InvalidSize` as the claim states. -/
theorem C8_handshake_read_invalid_utf8_cex :
    (Handshake.read (Reader.new (17 :: List.replicate 17 255))).1 =
      .err .InvalidValue ∧
    (Handshake.read (Reader.new (17 :: List.replicate 17 255))).1 ≠
      .err .InvalidSize := by
  decide

/-- C8 (amended): decoding a `Handshake` returns `InvalidSize` whenever the
decoded version length is 0 or greater than 16 — provided the version bytes
read are valid UTF-8, or too few bytes remain for them (otherwise the UTF-8
check fails first with `InvalidValue`) — and whenever the decoded peer count
is greater than 16 (reached with well-formed preceding fields). -/
theorem C8_handshake_read_invalid_size :
    (∀ (v : Nat) (rest : List Nat),
      (v = 0 ∨ 16 < v) →
      (utf8Valid (rest.take v) = true ∨ rest.length < v) →
      (Handshake.read (Reader.new (v :: rest))).1 = .err .InvalidSize) ∧
    (∀ (version : List Nat) (node_tag : Option (List Nat)) (nid : List Nat)
       (pid port utc height : Nat) (hsh : List Nat) (n : Nat) (rest : List Nat),
      0 < version.length → version.length ≤ 16 → utf8Valid version = true →
      nodeTagWF node_tag → nid.length = 16 → pid < 256 ^ 8 → port < 256 ^ 2 →
      utc < 256 ^ 8 → height < 256 ^ 8 → hsh.length = 32 → 16 < n →
      (Handshake.read (Reader.new (write_string version ++
        (write_optional_string node_tag ++ (nid ++ (natToBe 8 pid ++
        (natToBe 2 port ++ (natToBe 8 utc ++ (natToBe 8 height ++
        (hsh ++ (n :: rest))))))))))).1 = .err .InvalidSize) := by
  constructor
  · intro v rest hv hok
    obtain ⟨r', hr⟩ := readF_version_invalid hv hok
    simp only [Reader.new, Handshake.read, hr]
  · intro version node_tag nid pid port utc height hsh n rest
      hv0 hv16 hvu htag hnid hpid hport hutc hht hhsh hn
    have hd0 : (write_string version ++ (write_optional_string node_tag ++
        (nid ++ (natToBe 8 pid ++ (natToBe 2 port ++ (natToBe 8 utc ++
        (natToBe 8 height ++ (hsh ++ (n :: rest))))))))).drop 0 =
        write_string version ++ (write_optional_string node_tag ++
        (nid ++ (natToBe 8 pid ++ (natToBe 2 port ++ (natToBe 8 utc ++
        (natToBe 8 height ++ (hsh ++ (n :: rest)))))))) := List.drop_zero _
    have hF := readF_to_rest hv0 hv16 hvu htag hd0 rfl
    have hd1 := drop_advance' (drop_advance' hd0
        (show 0 + (write_string version).length = 0 + 1 + version.length by
          simp only [write_string, List.length_cons]
          omega))
      (show 0 + 1 + version.length + (write_optional_string node_tag).length =
        0 + 1 + version.length + (write_optional_string node_tag).length from rfl)
    have hRi := readRest_peers_invalid version node_tag hnid hpid hport hutc
      hht hhsh hn hd1
    simp only [Reader.new, Handshake.read, hF, hRi]

/-- The witness for C8: the version branch at the one-byte input `[0]`
(version length 0) and the peer-count branch at a minimal prefix followed by
the peer count 17. -/
theorem C8_handshake_read_invalid_size_witness :
    ((0 : Nat) = 0 ∨ 16 < (0 : Nat)) ∧
    (Handshake.read (Reader.new [0])).1 = .err .InvalidSize ∧
    (Handshake.read (Reader.new (write_string [65] ++
      (write_optional_string none ++ (List.replicate 16 0 ++ (natToBe 8 0 ++
      (natToBe 2 0 ++ (natToBe 8 0 ++ (natToBe 8 0 ++
      (List.replicate 32 0 ++ (17 :: []))))))))))).1 = .err .InvalidSize :=
  ⟨Or.inl rfl,
   C8_handshake_read_invalid_size.1 0 [] (Or.inl rfl) (by decide),
   C8_handshake_read_invalid_size.2 [65] none (List.replicate 16 0) 0 0 0 0
     (List.replicate 32 0) 17 [] (by decide) (by decide) (by decide)
     (by trivial) (by decide) (by decide) (by decide) (by decide) (by decide)
     (by decide) (by decide)⟩

/-- C9: a received handshake whose `network_id` differs from the local
`NETWORK_ID` makes handshake verification fail with `InvalidNetworkID` and
leaves the registry unchanged (`add_connection` is never reached). -/
theorem C9_network_mismatch_rejected :
    ∀ (parse : List Nat → Option SockAddr) (netId : List Nat)
      (s : ServerState) (addr : SockAddr) (data : List Nat) (out : Bool)
      (sendBackErr : Option P2pError) (setBlockingErr : Bool)
      (h : OldHandshake),
      OldHandshake.from_bytes data = .ok h →
      h.network_id ≠ netId →
      handle_new_connection parse netId s addr data out sendBackErr
        setBlockingErr = (.err .InvalidNetworkID, s) := by
  intro parse netId s addr data out sbe sbl h hfb hne
  simp only [handle_new_connection, hfb, ServerState.verify_handshake,
    if_pos hne]

/-- The witness for C9: the spec's scenario — local network id `[1; 16]`, a
decodable 76-byte handshake carrying network id `[2; 16]` — on a concrete
registry; the result is `InvalidNetworkID` with the registry returned
untouched. -/
theorem C9_network_mismatch_rejected_witness :
    OldHandshake.from_bytes ([1, 65, 0] ++ List.replicate 16 2 ++
        List.replicate 24 0 ++ List.replicate 32 0 ++ [0]) =
      .ok ⟨[65], none, List.replicate 16 2, 0, 0, 0,
           Hash.mk (List.replicate 32 0), []⟩ ∧
    handle_new_connection (fun _ => none) (List.replicate 16 1)
        ⟨1, 10, false, [], []⟩ (.v4 [127, 0, 0, 1] 2125)
        ([1, 65, 0] ++ List.replicate 16 2 ++ List.replicate 24 0 ++
          List.replicate 32 0 ++ [0]) false none false =
      (.err .InvalidNetworkID, ⟨1, 10, false, [], []⟩) :=
  ⟨by decide,
   C9_network_mismatch_rejected (fun _ => none) (List.replicate 16 1)
     ⟨1, 10, false, [], []⟩ (.v4 [127, 0, 0, 1] 2125) _ false none false
     ⟨[65], none, List.replicate 16 2, 0, 0, 0,
      Hash.mk (List.replicate 32 0), []⟩ (by decide) (by decide)⟩

/-- C10: when a primitive read fails with `InvalidSize` because fewer bytes
remain than required, the reader — in particular its cursor `total_read` — is
returned unchanged; this covers `read_u8`, `read_bytes(n)` and the reads built
on it (`read_u16`, `read_u64`, `read_u128`, `read_bytes_32`, `read_bytes_64`,
`read_hash`). -/
theorem C10_failed_read_leaves_cursor :
    (∀ (r : Reader) (n : Nat), r.size < n →
      Reader.read_bytes n r = (.error .InvalidSize, r)) ∧
    (∀ r : Reader, r.size = 0 →
      Reader.read_u8 r = (.error .InvalidSize, r)) ∧
    (∀ r : Reader, r.size < 2 →
      Reader.read_u16 r = (.error .InvalidSize, r)) ∧
    (∀ r : Reader, r.size < 8 →
      Reader.read_u64 r = (.error .InvalidSize, r)) ∧
    (∀ r : Reader, r.size < 16 →
      Reader.read_u128 r = (.error .InvalidSize, r)) ∧
    (∀ r : Reader, r.size < 32 →
      Reader.read_bytes_32 r = (.error .InvalidSize, r)) ∧
    (∀ r : Reader, r.size < 64 →
      Reader.read_bytes_64 r = (.error .InvalidSize, r)) ∧
    (∀ r : Reader, r.size < 32 →
      Reader.read_hash r = (.error .InvalidSize, r)) := by
  refine ⟨fun r n h => read_bytes_short h, ?_, ?_, ?_, ?_, ?_, ?_, ?_⟩
  · intro r h
    simp only [Reader.read_u8]
    rw [if_pos h]
  · intro r h
    simp only [Reader.read_u16, read_bytes_short h, Except.map]
  · intro r h
    simp only [Reader.read_u64, read_bytes_short h, Except.map]
  · intro r h
    simp only [Reader.read_u128, read_bytes_short h, Except.map]
  · intro r h
    simp only [Reader.read_bytes_32, read_bytes_short h]
  · intro r h
    simp only [Reader.read_bytes_64, read_bytes_short h]
  · intro r h
    simp only [Reader.read_hash, Reader.read_bytes_32, read_bytes_short h,
      Except.map]

/-- The witness for C10: a failing `read_bytes 1` on an exhausted reader
leaves the cursor at its place. -/
theorem C10_failed_read_leaves_cursor_witness :
    (Reader.mk [5] 1).size < 1 ∧
    Reader.read_bytes 1 ⟨[5], 1⟩ = (.error .InvalidSize, ⟨[5], 1⟩) :=
  ⟨by decide, C10_failed_read_leaves_cursor.1 ⟨[5], 1⟩ 1 (by decide)⟩

end Xelis
